import Mathlib

/-!
# Verification of the Sonir core against its specification

Shallow embedding of the Sonir repository (src/sonir/): the trajectory
baker (`core.py`), the time-to-segment index and per-frame viewport
animation state step (`renderer.py`), and the rhythm-judgment state
machine (`game.py`).  Python floats are modelled as exact rationals;
external library calls (numpy RandomState draws, math.cos / math.sin /
math.atan2 / sqrt, python random) are modelled as explicit environment
parameters: they are deterministic functions of the seed, and none of
the verified properties depend on the particular values drawn.
-/

namespace Sonir

/-- 2D vector, modelling the `np.array([x, y])` pairs of `core.py` and
`renderer.py`. -/
structure Vec2 where
  x : ℚ
  y : ℚ
deriving DecidableEq, Repr

instance : Add Vec2 := ⟨fun a b => ⟨a.x + b.x, a.y + b.y⟩⟩

instance : Sub Vec2 := ⟨fun a b => ⟨a.x - b.x, a.y - b.y⟩⟩

instance : Neg Vec2 := ⟨fun a => ⟨-a.x, -a.y⟩⟩

/-- Scalar multiple `v * c` (numpy broadcasting of a scalar over the pair). -/
def Vec2.smul (v : Vec2) (c : ℚ) : Vec2 := ⟨v.x * c, v.y * c⟩

/-- One element of the baked timeline: the segment dictionary appended by
`SonirCore.bake` (`core.py`, lines 76-83). -/
structure Segment where
  t0 : ℚ
  t1 : ℚ
  p0 : Vec2
  p1 : Vec2
  w1 : Vec2
  w2 : Vec2
deriving DecidableEq, Repr

/-- Abstract stand-ins for the real-valued library functions used by
`core.py` and `renderer.py` (`math.cos`, `math.sin`, `math.atan2`,
`np.linalg.norm`'s square root).  The verified properties hold for every
choice of these functions. -/
structure RealFns where
  cosR : ℚ → ℚ
  sinR : ℚ → ℚ
  atan2R : ℚ → ℚ → ℚ
  sqrtR : ℚ → ℚ

/-- The pseudorandom draws consumed by `SonirCore.bake`, as produced by
`np.random.RandomState(seed)` (`core.py`, line 30): the initial heading
angle (line 44), then per loop iteration `i` a turn magnitude draw
(line 57) and the boolean `rng.random_sample() > 0.5` (line 58).  A
numpy `RandomState` is a deterministic function of its seed, so an
environment of this shape is a deterministic function of the seed. -/
structure BakeEnv where
  fns : RealFns
  initAngle : ℚ
  turnAt : ℕ → ℚ
  flipAt : ℕ → Bool

/-- A concrete environment instance, used to evaluate the model on
concrete inputs. -/
def constEnv : BakeEnv :=
  { fns := { cosR := fun _ => 1, sinR := fun _ => 0,
             atan2R := fun _ _ => 0, sqrtR := fun _ => 1 }
    initAngle := 0
    turnAt := fun _ => 2
    flipAt := fun _ => false }

/-- `np.unique` (`core.py`, line 38): sort ascending and remove
duplicates. -/
def npUnique (xs : List ℚ) : List ℚ :=
  (xs.insertionSort (· ≤ ·)).dedup

/-- The baking loop of `SonirCore.bake` (`core.py`, lines 47-85),
carrying the current position `p` and current heading direction `d`;
`i` counts loop iterations so that the environment supplies the draws
of iteration `i`. -/
def bakeLoop (speed : ℚ) (env : BakeEnv) :
    List ℚ → ℕ → Vec2 → Vec2 → List Segment
  | t0 :: t1 :: rest, i, p, d =>
    let dt := t1 - t0
    let hitP := p + d.smul (speed * dt)
    let turn0 := env.turnAt i
    let turn := if env.flipAt i then -turn0 else turn0
    let newAngle := env.fns.atan2R d.y d.x + turn
    let nextD : Vec2 := ⟨env.fns.cosR newAngle, env.fns.sinR newAngle⟩
    let nrm := d - nextD
    let nrmLen := env.fns.sqrtR (nrm.x * nrm.x + nrm.y * nrm.y)
    let nrm2 := if nrmLen > 0 then nrm.smul (1 / nrmLen) else nrm
    let wdir : Vec2 := ⟨-nrm2.y, nrm2.x⟩
    let wallLen : ℚ := 90
    { t0 := t0, t1 := t1, p0 := p, p1 := hitP,
      w1 := hitP + wdir.smul wallLen,
      w2 := hitP - wdir.smul wallLen } ::
      bakeLoop speed env (t1 :: rest) (i + 1) hitP nextD
  | _, _, _, _ => []

/-- `SonirCore.bake` (`core.py`, lines 12-87): empty input returns the
(empty) input back; otherwise 0.0 is prepended when the first element is
positive, the array is sanitized with `np.unique`, and the loop walks the
consecutive onset pairs from position `(0,0)` with the initial heading
drawn from the seeded generator.  Returns `(timeline, sanitized onsets)`. -/
def bake (onsets : List ℚ) (speed : ℚ) (env : BakeEnv) :
    List Segment × List ℚ :=
  match onsets with
  | [] => ([], [])
  | o :: rest =>
    let withZero := if o > 0 then 0 :: o :: rest else o :: rest
    let sanitized := npUnique withZero
    let d0 : Vec2 := ⟨env.fns.cosR env.initAngle, env.fns.sinR env.initAngle⟩
    (bakeLoop speed env sanitized 0 ⟨0, 0⟩ d0, sanitized)

/-- `np.searchsorted(onsets, t)` with the default side `left`, as used in
`renderer.py` line 168 and `game.py` lines 198 and 280: on a sorted
array it returns the number of elements strictly below `t`. -/
def searchsortedL (xs : List ℚ) (v : ℚ) : ℕ :=
  xs.countP (fun x => decide (x < v))

/-- The time-to-segment-index lookup of `SonirRenderer._draw_viewport`
(`renderer.py`, lines 168-169): `idx = np.searchsorted(onsets, t) - 1`,
then `if idx < 0: idx = 0`. -/
def timeToIndex (onsets : List ℚ) (t : ℚ) : ℤ :=
  let idx : ℤ := (searchsortedL onsets t : ℤ) - 1
  if idx < 0 then 0 else idx

/-- Scoring window `self.PERFECT = 0.04` (`game.py`, line 37). -/
def PERFECT : ℚ := 4 / 100

/-- Scoring window `self.GOOD = 0.10` (`game.py`, line 38). -/
def GOOD : ℚ := 10 / 100

/-- Scoring window `self.BAD = 0.18` (`game.py`, line 39). -/
def BAD : ℚ := 18 / 100

/-- The global judgment scalars of `RhythmGame`: score, combo, max
combo, health and its bound, and the last feedback label (the wall-clock
feedback timestamp and its RGB color carry no verified content and are
omitted). -/
structure Globals where
  score : ℕ
  combo : ℕ
  max_combo : ℕ
  health : ℚ
  max_health : ℚ
  feedback : String
deriving DecidableEq

/-- Initial judgment globals (`game.py`, lines 24-27 and 42). -/
def initGlobals : Globals :=
  { score := 0, combo := 0, max_combo := 0, health := 100, max_health := 100,
    feedback := "" }

/-- Per-track judgment data: the track's onset array and baked timeline
(from `tracks_data`), the resolved-onset set `processed_onsets[name]`
and the miss-sweep cursor `track_indices[name]`; the python set of
resolved onsets is modelled as a duplicate-free list queried only for
membership. -/
structure TrackState where
  onsets : List ℚ
  timeline : List Segment
  processed : List ℚ
  cursor : ℕ
deriving DecidableEq

/-- The judgment state of a `RhythmGame` session: the per-track states
(dict iteration order modelled as list order), the global scalars, and
the flags this model needs.  `death` is whether the modifier list
contains "death"; the model covers sessions with `autoplay = False` and
no "chaos"/"focus" modifier (those draw from wall-clock time and an
unseeded generator and leave the judgment logic untouched). -/
structure GameState where
  tracks : List TrackState
  gl : Globals
  death : Bool
  game_over : Bool
  in_countdown : Bool
deriving DecidableEq

/-- Health loss of the extra-input penalty branch of
`RhythmGame._process_hit` (`game.py`, lines 290 and 331). -/
def extraLoss (death : Bool) : ℚ := if death then 100 else 4

/-- Health loss of `RhythmGame._trigger_miss` (`game.py`, line 270). -/
def missLoss (death : Bool) : ℚ := if death then 100 else 10

/-- `RhythmGame._trigger_miss` (`game.py`, lines 269-275): subtract the
miss loss from health (clamped at 0), reset combo, set feedback. -/
def triggerMissGl (loss : ℚ) (gl : Globals) : Globals :=
  { gl with health := max 0 (gl.health - loss), combo := 0, feedback := "MISS" }

/-- The extra-input penalty shared by both no-match branches of
`RhythmGame._process_hit` (`game.py`, lines 289-296 and 330-336). -/
def extraPenalty (death : Bool) (gl : Globals) : Globals :=
  { gl with
    health := max 0 (gl.health - extraLoss death)
    combo := 0
    feedback := "X" }

/-- The candidate onsets of `RhythmGame._process_hit` (`game.py`, lines
280-284): the onset at the insertion index (first at-or-after `t`) and
the one just before it, in that order. -/
def candidatesOf (onsets : List ℚ) (t : ℚ) : List ℚ :=
  let idx := searchsortedL onsets t
  (if idx < onsets.length then [onsets.getD idx 0] else []) ++
    (if 0 < idx then [onsets.getD (idx - 1) 0] else [])

/-- Python `min(valid, key=lambda x: abs(x - t))`: the first element
attaining the minimal absolute difference (`game.py`, line 298). -/
def closestTo (t : ℚ) : List ℚ → ℚ
  | [] => 0
  | x :: xs => xs.foldl (fun best c => if |c - t| < |best - t| then c else best) x

/-- `RhythmGame._process_hit` (`game.py`, lines 277-336) for one track:
build the two nearest candidates, drop already-resolved ones; with no
candidate at all return unchanged; with no unresolved candidate apply
the extra-input penalty; otherwise classify the closest candidate's
absolute difference into PERFECT/GOOD/OK (marking it resolved,
incrementing combo, updating max combo, adding score and health) or,
at `diff ≥ BAD`, apply the extra-input penalty.  `judgeValid` is the
classification tail of `_process_hit` (`game.py`, lines 298-336),
applied to the non-empty list of unresolved candidates. -/
def judgeValid (death : Bool) (t : ℚ) (processed : List ℚ) (gl : Globals)
    (valid : List ℚ) : List ℚ × Globals :=
  if |closestTo t valid - t| < BAD then
    if |closestTo t valid - t| < PERFECT then
      (processed.insert (closestTo t valid),
        { score := gl.score + 300
          combo := gl.combo + 1
          max_combo := if gl.combo + 1 > gl.max_combo then gl.combo + 1
            else gl.max_combo
          health := min gl.max_health (gl.health + 6)
          max_health := gl.max_health
          feedback := "PERFECT" })
    else if |closestTo t valid - t| < GOOD then
      (processed.insert (closestTo t valid),
        { score := gl.score + 100
          combo := gl.combo + 1
          max_combo := if gl.combo + 1 > gl.max_combo then gl.combo + 1
            else gl.max_combo
          health := min gl.max_health (gl.health + 3)
          max_health := gl.max_health
          feedback := "GOOD" })
    else
      (processed.insert (closestTo t valid),
        { score := gl.score + 50
          combo := gl.combo + 1
          max_combo := if gl.combo + 1 > gl.max_combo then gl.combo + 1
            else gl.max_combo
          health := min gl.max_health (gl.health + 1 / 2)
          max_health := gl.max_health
          feedback := "OK" })
  else (processed, extraPenalty death gl)

def processHit (death : Bool) (onsets : List ℚ) (t : ℚ)
    (processed : List ℚ) (gl : Globals) : List ℚ × Globals :=
  if candidatesOf onsets t = [] then (processed, gl)
  else if (candidatesOf onsets t).filter (fun c => decide (c ∉ processed)) = []
  then (processed, extraPenalty death gl)
  else judgeValid death t processed gl
    ((candidatesOf onsets t).filter (fun c => decide (c ∉ processed)))

/-- The miss-detection while loop of `RhythmGame._handle_input`
(`game.py`, lines 208-218) for one track, with explicit fuel (the loop
advances the cursor every iteration, so `onsets.length - cursor` steps
suffice): while the cursor is in range and the onset at the cursor is
more than `BAD` behind `T`, resolve it (with a miss penalty if it was
not already resolved) and advance the cursor. -/
def sweepGo (T loss : ℚ) (onsets : List ℚ) :
    ℕ → ℕ → List ℚ → Globals → ℕ × List ℚ × Globals
  | 0, c, pr, gl => (c, pr, gl)
  | fuel + 1, c, pr, gl =>
    if h : c < onsets.length then
      if T > onsets.get ⟨c, h⟩ + BAD then
        if onsets.get ⟨c, h⟩ ∈ pr then
          sweepGo T loss onsets fuel (c + 1) pr gl
        else
          sweepGo T loss onsets fuel (c + 1) (pr.insert (onsets.get ⟨c, h⟩))
            (triggerMissGl loss gl)
      else (c, pr, gl)
    else (c, pr, gl)

/-- The miss sweep applied to one track's state. -/
def sweepTrackG (T loss : ℚ) (tr : TrackState) (gl : Globals) :
    TrackState × Globals :=
  ({ tr with
      cursor := (sweepGo T loss tr.onsets (tr.onsets.length - tr.cursor)
        tr.cursor tr.processed gl).1
      processed := (sweepGo T loss tr.onsets (tr.onsets.length - tr.cursor)
        tr.cursor tr.processed gl).2.1 },
    (sweepGo T loss tr.onsets (tr.onsets.length - tr.cursor)
      tr.cursor tr.processed gl).2.2)

/-- The miss sweep over all tracks in iteration order (`game.py`,
lines 206-218). -/
def sweepTracks (T loss : ℚ) :
    List TrackState → Globals → List TrackState × Globals
  | [], gl => ([], gl)
  | tr :: rest, gl =>
    let h := sweepTrackG T loss tr gl
    let r := sweepTracks T loss rest h.2
    (h.1 :: r.1, r.2)

/-- The whole per-frame miss sweep. -/
def missSweepAll (T : ℚ) (g : GameState) : GameState :=
  { g with
    tracks := (sweepTracks T (missLoss g.death) g.tracks g.gl).1
    gl := (sweepTracks T (missLoss g.death) g.tracks g.gl).2 }

/-- One keydown routed to track `k` (`game.py`, lines 258-265): keys not
mapped to any track are skipped, which the model renders as an
out-of-range index. -/
def processHitAt (t : ℚ) (k : ℕ) (g : GameState) : GameState :=
  match g.tracks.get? k with
  | none => g
  | some tr =>
    let r := processHit g.death tr.onsets t tr.processed g.gl
    { g with tracks := g.tracks.set k { tr with processed := r.1 }, gl := r.2 }

/-- The input loop of a frame: the keydown events of the frame, already
mapped through `key_map` to target track indices, processed in order. -/
def processEvents (t : ℚ) (events : List ℕ) (g : GameState) : GameState :=
  events.foldl (fun acc k => processHitAt t k acc) g

/-- The passive per-frame health drain
`self.health = max(0, self.health - (5.0 * 0.016))` (`game.py`,
line 192). -/
def drainHealth (g : GameState) : GameState :=
  { g with gl := { g.gl with health := max 0 (g.gl.health - 5 * (16 / 1000)) } }

/-- The active-frame body of `RhythmGame._handle_input` (`game.py`,
lines 148-267) under `autoplay = False` and without the "chaos"/"focus"
modifiers: during countdown or after game over the judgment state is
untouched; with health already at 0 the frame flips to game over;
otherwise the frame drains health, runs the miss sweep over all tracks,
and only then processes the frame's input events. -/
def gameUpdate (T : ℚ) (events : List ℕ) (g : GameState) : GameState :=
  if g.in_countdown then g
  else if g.game_over then g
  else if g.gl.health ≤ 0 then
    { g with game_over := true, gl := { g.gl with health := 0 } }
  else
    processEvents T events (missSweepAll T (drainHealth g))

/-- The restart block of `RhythmGame._handle_input` (`game.py`, lines
173-183): on R after game over, health, score and combo are restored,
the game-over flag cleared, the countdown restarted, and the
resolved-onset sets and cursors reinitialized.  `max_combo`, the baked
timelines and the onset arrays are not touched. -/
def resetGame (g : GameState) : GameState :=
  { g with
    gl := { g.gl with health := g.gl.max_health, score := 0, combo := 0 }
    game_over := false
    in_countdown := true
    tracks := g.tracks.map (fun tr => { tr with processed := [], cursor := 0 }) }

/-- The track component of the sweep does not depend on the globals
threaded through it. -/
def sweepTrackPure (T loss : ℚ) (tr : TrackState) : TrackState :=
  (sweepTrackG T loss tr initGlobals).1

/-- A concrete single-track judgment state used to instantiate the
hypothesis-bearing theorems: one onset at 1 s, nothing resolved yet. -/
def sampleTrack : TrackState :=
  { onsets := [1], timeline := [], processed := [], cursor := 0 }

/-- A concrete active game state over `sampleTrack`. -/
def sampleGame : GameState :=
  { tracks := [sampleTrack], gl := initGlobals, death := false,
    game_over := false, in_countdown := false }

/-- `Config.LERP_FACTOR = 0.08` (`config.py`, line 11). -/
def LERP_FACTOR : ℚ := 8 / 100

/-- `Config.SHAKE_DECAY = 5.0` (`config.py`). -/
def SHAKE_DECAY : ℚ := 5

/-- `Config.PARTICLE_DECAY = 2.0` (`config.py`). -/
def PARTICLE_DECAY : ℚ := 2

/-- `Config.SHAKE_THRESHOLD = 0.91` (`config.py`). -/
def SHAKE_THRESHOLD : ℚ := 91 / 100

/-- `Config.CAM_LOOKAHEAD = 0.15` (`config.py`). -/
def CAM_LOOKAHEAD : ℚ := 15 / 100

/-- `Config.PARTICLE_COUNT = 8` (`config.py`). -/
def PARTICLE_COUNT : ℕ := 8

/-- `Config.TRAIL_LENGTH = 15` (`config.py`). -/
def TRAIL_LENGTH : ℕ := 15

/-- A particle `[pos, vel, life, color]` (`renderer.py`, line 214). -/
structure Particle where
  pos : Vec2
  vel : Vec2
  life : ℚ
  col : ℕ × ℕ × ℕ
deriving DecidableEq

/-- The per-track animation state `render_state[name]` (`renderer.py`,
lines 53-60); the static star field is never mutated and carries no
verified content, so it is omitted. -/
structure ViewState where
  cam : Vec2
  particles : List Particle
  trail : List Vec2
  shake : ℚ
  last_hit_idx : ℤ
deriving DecidableEq

/-- The initial animation state (`renderer.py`, lines 53-60). -/
def initViewState : ViewState :=
  { cam := ⟨0, 0⟩, particles := [], trail := [], shake := 0,
    last_hit_idx := -1 }

/-- The draws of python `random` consumed by the particle spawn
(`renderer.py`, lines 211-212), modelled as explicit streams. -/
structure EffEnv where
  fns : RealFns
  angleAt : ℕ → ℚ
  speedAt : ℕ → ℚ

/-- A concrete effect environment for evaluating on concrete inputs. -/
def constEffEnv : EffEnv :=
  { fns := constEnv.fns, angleAt := fun _ => 0, speedAt := fun _ => 0 }

/-- The camera smoothing step
`state["cam"] += (target_cam - state["cam"]) * Config.LERP_FACTOR`
(`renderer.py`, line 217). -/
def camStep (cam target : Vec2) : Vec2 :=
  cam + (target - cam).smul LERP_FACTOR

/-- Squared euclidean length, used to compare camera-target distances
without a square root. -/
def normSq (v : Vec2) : ℚ := v.x * v.x + v.y * v.y

/-- Segment progress `(audio_time - t0) / duration if duration > 0
else 0` (`renderer.py`, line 192). -/
def segProgress (seg : Segment) (t : ℚ) : ℚ :=
  if seg.t1 - seg.t0 > 0 then (t - seg.t0) / (seg.t1 - seg.t0) else 0

/-- Interpolated square position (`renderer.py`, line 193). -/
def sqWorldAt (seg : Segment) (t : ℚ) : Vec2 :=
  seg.p0 + (seg.p1 - seg.p0).smul (segProgress seg t)

/-- Instantaneous velocity (`renderer.py`, line 195). -/
def segVelocity (seg : Segment) : Vec2 :=
  if seg.t1 - seg.t0 > 0 then (seg.p1 - seg.p0).smul (1 / (seg.t1 - seg.t0))
  else ⟨0, 0⟩

/-- Camera target `center - sq_world + lookahead` with
`lookahead = -velocity * CAM_LOOKAHEAD` (`renderer.py`,
lines 197-201). -/
def targetCamOf (center : Vec2) (seg : Segment) (t : ℚ) : Vec2 :=
  center - sqWorldAt seg t + (-segVelocity seg).smul CAM_LOOKAHEAD

/-- Particle integration and decay (`renderer.py`, lines 175-182):
move by `vel * dt`, lose `PARTICLE_DECAY * dt` life, keep the still
alive. -/
def stepParticles (dt : ℚ) (ps : List Particle) : List Particle :=
  (ps.map (fun p =>
    { p with
      pos := p.pos + p.vel.smul dt
      life := p.life - PARTICLE_DECAY * dt })).filter
    (fun p => decide (p.life > 0))

/-- Shake decay `max(0, shake - SHAKE_DECAY * dt)` (`renderer.py`,
line 173). -/
def decayShake (dt sh : ℚ) : ℚ := max 0 (sh - SHAKE_DECAY * dt)

/-- The particles spawned on a hit (`renderer.py`, lines 209-214). -/
def spawnParticles (env : EffEnv) (col : ℕ × ℕ × ℕ) (pos : Vec2) :
    List Particle :=
  (List.range PARTICLE_COUNT).map (fun i =>
    { pos := pos
      vel := ⟨env.fns.cosR (env.angleAt i) * env.speedAt i,
              env.fns.sinR (env.angleAt i) * env.speedAt i⟩
      life := 1
      col := col })

/-- Trail append with front eviction past `TRAIL_LENGTH`
(`renderer.py`, lines 233-235). -/
def pushTrail (trail : List Vec2) (p : Vec2) : List Vec2 :=
  if (trail ++ [p]).length > TRAIL_LENGTH then (trail ++ [p]).tail
  else trail ++ [p]

/-- The hit-effect trigger condition of `_draw_viewport`
(`renderer.py`, lines 189 and 204): a timeline exists, the looked-up
index is an in-range segment, its progress exceeds `SHAKE_THRESHOLD`,
and that index differs from the stored last-triggered index. -/
def hitFires (timeline : List Segment) (onsets : List ℚ) (t : ℚ)
    (st : ViewState) : Bool :=
  if timeline = [] then false
  else if h : 0 ≤ timeToIndex onsets t ∧
      (timeToIndex onsets t).toNat < timeline.length then
    decide (segProgress
        (timeline.get ⟨(timeToIndex onsets t).toNat, h.2⟩) t >
      SHAKE_THRESHOLD) && (timeToIndex onsets t != st.last_hit_idx)
  else false

/-- The state mutations of `_draw_viewport` for an in-range active
segment (`renderer.py`, lines 189-235): decay shake and particles,
then fire the hit effect when the trigger condition holds (record the
index, bump shake additively capped at 1.0, spawn particles at the hit
point), smooth the camera toward the target and append to the trail. -/
def stepActive (env : EffEnv) (col : ℕ × ℕ × ℕ) (center : Vec2)
    (seg : Segment) (idx : ℤ) (t dt : ℚ) (st : ViewState) : ViewState :=
  if decide (segProgress seg t > SHAKE_THRESHOLD) &&
      (idx != st.last_hit_idx) then
    { cam := camStep st.cam (targetCamOf center seg t)
      particles := stepParticles dt st.particles ++ spawnParticles env col seg.p1
      trail := pushTrail st.trail (sqWorldAt seg t)
      shake := min 1 (decayShake dt st.shake + 6 / 10)
      last_hit_idx := idx }
  else
    { cam := camStep st.cam (targetCamOf center seg t)
      particles := stepParticles dt st.particles
      trail := pushTrail st.trail (sqWorldAt seg t)
      shake := decayShake dt st.shake
      last_hit_idx := st.last_hit_idx }

/-- One animation frame of `_draw_viewport` for one track
(`renderer.py`, lines 144-235), state mutations only: with no timeline
the state is untouched (early return, line 165); with the looked-up
index out of range only shake/particle decay run and the camera target
is its current value; otherwise the active-segment step runs. -/
def stepViewport (env : EffEnv) (col : ℕ × ℕ × ℕ) (center : Vec2)
    (timeline : List Segment) (onsets : List ℚ) (t dt : ℚ)
    (st : ViewState) : ViewState :=
  if timeline = [] then st
  else if h : 0 ≤ timeToIndex onsets t ∧
      (timeToIndex onsets t).toNat < timeline.length then
    stepActive env col center
      (timeline.get ⟨(timeToIndex onsets t).toNat, h.2⟩)
      (timeToIndex onsets t) t dt st
  else
    { st with
      shake := decayShake dt st.shake
      particles := stepParticles dt st.particles
      cam := camStep st.cam st.cam }

/-- Modelled from the spec: the handler of the reset sentinel
`-999999` returned by the restart branch of `RhythmGame._handle_input`
(`game.py`, line 183) belongs to the base renderer input loop, which is
not among the repository files under src/; per the spec, "reset
reinitializes JudgmentState and the animator's hit-trigger guard but
reuses the same Timeline", so it restores the animator's last-triggered
segment index to its initial value. -/
def resetView (v : ViewState) : ViewState :=
  { v with last_hit_idx := initViewState.last_hit_idx }

/-- A concrete one-second segment from the origin to (1, 0). -/
def sampleSegment : Segment :=
  { t0 := 0
    t1 := 1
    p0 := ⟨0, 0⟩
    p1 := ⟨1, 0⟩
    w1 := ⟨0, 0⟩
    w2 := ⟨0, 0⟩ }

/-- A concrete game-over state with a nonzero max combo, as reached by
scoring three consecutive hits and then running out of health. -/
def sampleOverGame : GameState :=
  { tracks := [sampleTrack]
    gl := { score := 450, combo := 0, max_combo := 3, health := 0,
            max_health := 100, feedback := "MISS" }
    death := false
    game_over := true
    in_countdown := false }

@[simp] theorem Vec2.add_x (a b : Vec2) : (a + b).x = a.x + b.x := rfl

@[simp] theorem Vec2.add_y (a b : Vec2) : (a + b).y = a.y + b.y := rfl

@[simp] theorem Vec2.sub_x (a b : Vec2) : (a - b).x = a.x - b.x := rfl

@[simp] theorem Vec2.sub_y (a b : Vec2) : (a - b).y = a.y - b.y := rfl

@[simp] theorem Vec2.smul_x (a : Vec2) (c : ℚ) : (a.smul c).x = a.x * c := rfl

@[simp] theorem Vec2.smul_y (a : Vec2) (c : ℚ) : (a.smul c).y = a.y * c := rfl

/-- The number of segments produced by the loop is one less than the
number of onsets it walks. -/
theorem bakeLoop_length (speed : ℚ) (env : BakeEnv) :
    ∀ (xs : List ℚ) (i : ℕ) (p d : Vec2),
      (bakeLoop speed env xs i p d).length = xs.length - 1 := by
  intro xs
  induction xs with
  | nil => intro i p d; simp [bakeLoop]
  | cons a tl ih =>
    intro i p d
    cases tl with
    | nil => simp [bakeLoop]
    | cons b r =>
      simp only [bakeLoop, List.length_cons]
      rw [ih]
      simp

/-- Adjacent segments emitted by the loop are continuous in time and
position: the loop carries `(hit point, next heading)` forward. -/
theorem bakeLoop_chain (speed : ℚ) (env : BakeEnv) :
    ∀ (xs : List ℚ) (i : ℕ) (p d : Vec2),
      List.Chain' (fun s s2 => s.t1 = s2.t0 ∧ s.p1 = s2.p0)
        (bakeLoop speed env xs i p d) := by
  intro xs
  induction xs with
  | nil => intro i p d; simp [bakeLoop]
  | cons a tl ih =>
    intro i p d
    cases tl with
    | nil => simp [bakeLoop]
    | cons b r =>
      rw [bakeLoop]
      apply List.chain'_cons'.mpr
      constructor
      · intro s hs
        cases r with
        | nil => simp [bakeLoop] at hs
        | cons c r2 =>
          rw [bakeLoop] at hs
          simp only [List.head?_cons, Option.mem_def, Option.some.injEq] at hs
          subst hs
          exact ⟨rfl, rfl⟩
      · exact ih (i + 1) _ _

lemma npUnique_ne_nil {xs : List ℚ} (h : xs ≠ []) : npUnique xs ≠ [] := by
  intro hc
  have h2 : xs.insertionSort (· ≤ ·) = [] := (List.dedup_eq_nil _).mp hc
  have h3 : (xs.insertionSort (· ≤ ·)).length = xs.length :=
    List.length_insertionSort _ _
  rw [h2] at h3
  simp only [List.length_nil] at h3
  exact h (List.length_eq_zero.mp h3.symm)

/-- C1: `bake` is deterministic — with identical onsets, speed and seed
(the seeded generator, hence the whole draw environment, is a function
of the seed alone) two runs produce the identical timeline and the
identical sanitized onset array.  In this embedding `bake` is a pure
function of `(onsets, speed, env)`, and the environment is any function
of the seed, so the two runs coincide definitionally. -/
theorem bake_deterministic (mkEnv : Option ℤ → BakeEnv) (seed : Option ℤ)
    (onsets : List ℚ) (speed : ℚ) :
    (bake onsets speed (mkEnv seed)).1 = (bake onsets speed (mkEnv seed)).1 ∧
    (bake onsets speed (mkEnv seed)).2 = (bake onsets speed (mkEnv seed)).2 :=
  ⟨rfl, rfl⟩

/-- C3: for every non-negative input onset sequence and every draw
environment, the baked timeline is continuous: for each `i` with
`i + 1 < len(timeline)`, `segments[i].t1 = segments[i+1].t0` and
`segments[i].p1 = segments[i+1].p0`. -/
theorem bake_continuous (env : BakeEnv) (speed : ℚ) (onsets : List ℚ)
    (hnn : ∀ x ∈ onsets, 0 ≤ x) :
    ∀ i (h : i + 1 < (bake onsets speed env).1.length),
      ((bake onsets speed env).1.get ⟨i, by omega⟩).t1 =
        ((bake onsets speed env).1.get ⟨i + 1, h⟩).t0 ∧
      ((bake onsets speed env).1.get ⟨i, by omega⟩).p1 =
        ((bake onsets speed env).1.get ⟨i + 1, h⟩).p0 := by
  intro i h
  have hc : List.Chain' (fun s s2 => s.t1 = s2.t0 ∧ s.p1 = s2.p0)
      (bake onsets speed env).1 := by
    cases onsets with
    | nil => simp [bake]
    | cons o rest => exact bakeLoop_chain speed env _ 0 _ _
  exact List.chain'_iff_get.mp hc i (by omega)

/-- Witness for C3 at the concrete onsets `[0, 1, 2]` (two segments). -/
theorem bake_continuous_witness :
    ((bake [0, 1, 2] 850 constEnv).1.get ⟨0, by decide⟩).t1 =
      ((bake [0, 1, 2] 850 constEnv).1.get ⟨1, by decide⟩).t0 ∧
    ((bake [0, 1, 2] 850 constEnv).1.get ⟨0, by decide⟩).p1 =
      ((bake [0, 1, 2] 850 constEnv).1.get ⟨1, by decide⟩).p0 :=
  bake_continuous constEnv 850 [0, 1, 2] (by decide) 0 (by decide)

/-- C4 counterexample: on the empty input `bake` returns an empty
timeline and an empty onset array, so the sanitized onset array's length
(0) is NOT the number of segments plus one (1): the stated equation
fails at the empty input the claim explicitly includes. -/
theorem bake_length_cex :
    ¬ ((bake [] 850 constEnv).2.length =
        (bake [] 850 constEnv).1.length + 1) := by
  decide

/-- C4 (amended): for every NON-EMPTY input onset sequence the sanitized
onset array's length equals the number of returned segments plus one,
and the empty input yields an empty timeline and an empty onset array
(not an error). -/
theorem bake_length (env : BakeEnv) (speed : ℚ) (onsets : List ℚ) :
    (onsets ≠ [] →
      (bake onsets speed env).2.length = (bake onsets speed env).1.length + 1) ∧
    bake [] speed env = ([], []) := by
  constructor
  · intro hne
    cases onsets with
    | nil => exact absurd rfl hne
    | cons o rest =>
      simp only [bake]
      rw [bakeLoop_length]
      have h1 : npUnique (if o > 0 then 0 :: o :: rest else o :: rest) ≠ [] := by
        apply npUnique_ne_nil
        split <;> simp
      have h2 : (npUnique (if o > 0 then 0 :: o :: rest else o :: rest)).length ≠ 0 := by
        simpa [List.length_eq_zero] using h1
      omega
  · rfl

/-- Witness for C4 at the concrete non-empty input `[1, 2]`. -/
theorem bake_length_witness :
    (bake [1, 2] 850 constEnv).2.length =
      (bake [1, 2] 850 constEnv).1.length + 1 :=
  (bake_length constEnv 850 [1, 2]).1 (by decide)

/-- If a boolean predicate holds on exactly the first `k` positions of a
list, then `countP` counts `k`. -/
lemma countP_eq_of_firstk (p : ℚ → Bool) :
    ∀ (xs : List ℚ) (k : ℕ), k ≤ xs.length →
      (∀ j (hj : j < xs.length), j < k → p (xs.get ⟨j, hj⟩) = true) →
      (∀ j (hj : j < xs.length), k ≤ j → p (xs.get ⟨j, hj⟩) = false) →
      xs.countP p = k := by
  intro xs
  induction xs with
  | nil =>
    intro k hk _ _
    simp only [List.length_nil, Nat.le_zero] at hk
    simp [hk]
  | cons a tl ih =>
    intro k hk h1 h2
    cases k with
    | zero =>
      have ha : p a = false := h2 0 (by simp) (Nat.zero_le _)
      have htl : tl.countP p = 0 := by
        apply ih 0 (Nat.zero_le _)
        · intro j hj hj0; omega
        · intro j hj _
          exact h2 (j + 1) (by simpa using Nat.succ_lt_succ hj) (Nat.zero_le _)
      simp [List.countP_cons, ha, htl]
    | succ k2 =>
      have ha : p a = true := h1 0 (by simp) (Nat.succ_pos _)
      have htl : tl.countP p = k2 := by
        apply ih k2 (by simpa using hk)
        · intro j hj hjk
          exact h1 (j + 1) (by simpa using Nat.succ_lt_succ hj)
            (Nat.succ_lt_succ hjk)
        · intro j hj hjk
          exact h2 (j + 1) (by simpa using Nat.succ_lt_succ hj)
            (Nat.succ_le_succ hjk)
      simp [List.countP_cons, ha, htl]

/-- C2 counterexample: with the sorted onsets `[0, 1, 2]` and the query
time `t = 1 = onsets[1]` exactly, the lookup returns 0, not the claimed
index 1 (the last onset `≤ t`). -/
theorem timeToIndex_cex :
    timeToIndex [0, 1, 2] 1 = 0 ∧ timeToIndex [0, 1, 2] 1 ≠ 1 := by
  decide

/-- C2 (amended): on a strictly increasing onset array the lookup
returns the index of the last onset STRICTLY LESS than the query time,
clamped at 0 — the unique `i` with `onsets[i] < t <= onsets[i+1]`; it
returns 0 for `t ≤ onsets[0]` (so for `t` exactly equal to `onsets[i]`
with `i ≥ 1` it returns `i - 1`, not `i`), and for `t` past the last
onset it returns `len - 1`, which is one past the last segment of the
corresponding timeline (no active segment). -/
theorem timeToIndex_correct (onsets : List ℚ) (t : ℚ)
    (hs : List.Sorted (· < ·) onsets) :
    (∀ i (hi : i + 1 < onsets.length),
        onsets.get ⟨i, by omega⟩ < t → t ≤ onsets.get ⟨i + 1, hi⟩ →
        timeToIndex onsets t = i) ∧
    (∀ (h0 : 0 < onsets.length),
        t ≤ onsets.get ⟨0, h0⟩ → timeToIndex onsets t = 0) ∧
    (∀ (h0 : 0 < onsets.length),
        onsets.get ⟨onsets.length - 1, by omega⟩ < t →
        timeToIndex onsets t = (onsets.length : ℤ) - 1) := by
  have hmono : ∀ (i j : ℕ) (hi : i < onsets.length) (hj : j < onsets.length),
      i ≤ j → onsets.get ⟨i, hi⟩ ≤ onsets.get ⟨j, hj⟩ := by
    intro i j hi hj hij
    rcases Nat.lt_or_ge i j with h | h
    · exact le_of_lt (List.pairwise_iff_get.mp hs ⟨i, hi⟩ ⟨j, hj⟩ h)
    · have : i = j := le_antisymm hij h
      subst this
      exact le_refl _
  refine ⟨?_, ?_, ?_⟩
  · intro i hi hlow hhigh
    have hcount : searchsortedL onsets t = i + 1 := by
      apply countP_eq_of_firstk _ onsets (i + 1) (by omega)
      · intro j hj hjk
        have : onsets.get ⟨j, hj⟩ ≤ onsets.get ⟨i, by omega⟩ :=
          hmono j i hj (by omega) (by omega)
        simp only [decide_eq_true_eq]
        exact lt_of_le_of_lt this hlow
      · intro j hj hjk
        have : onsets.get ⟨i + 1, hi⟩ ≤ onsets.get ⟨j, hj⟩ :=
          hmono (i + 1) j hi hj hjk
        simp only [decide_eq_false_iff_not, not_lt]
        exact le_trans hhigh this
    simp only [timeToIndex, hcount]
    norm_num
  · intro h0 ht
    have hcount : searchsortedL onsets t = 0 := by
      apply countP_eq_of_firstk _ onsets 0 (Nat.zero_le _)
      · intro j hj hjk; omega
      · intro j hj _
        have : onsets.get ⟨0, h0⟩ ≤ onsets.get ⟨j, hj⟩ :=
          hmono 0 j h0 hj (Nat.zero_le _)
        simp only [decide_eq_false_iff_not, not_lt]
        exact le_trans ht this
    simp [timeToIndex, hcount]
  · intro h0 ht
    have hcount : searchsortedL onsets t = onsets.length := by
      apply countP_eq_of_firstk _ onsets onsets.length (le_refl _)
      · intro j hj _
        have : onsets.get ⟨j, hj⟩ ≤ onsets.get ⟨onsets.length - 1, by omega⟩ :=
          hmono j (onsets.length - 1) hj (by omega) (by omega)
        simp only [decide_eq_true_eq]
        exact lt_of_le_of_lt this ht
      · intro j hj hjk; omega
    simp only [timeToIndex, hcount]
    have : ¬ ((onsets.length : ℤ) - 1 < 0) := by omega
    simp only [this, if_false]

/-- Witness for C2 (amended) at onsets `[0, 1, 2]`, `t = 3/2`: the
lookup returns segment index 1. -/
theorem timeToIndex_correct_witness :
    timeToIndex [0, 1, 2] (3 / 2) = 1 :=
  (timeToIndex_correct [0, 1, 2] (3 / 2) (by decide)).1 1 (by decide)
    (by norm_num) (by norm_num)

lemma candidatesOf_ne_nil (onsets : List ℚ) (t : ℚ) (h : onsets ≠ []) :
    candidatesOf onsets t ≠ [] := by
  unfold candidatesOf
  have hlen : 0 < onsets.length := List.length_pos.mpr h
  have hle : searchsortedL onsets t ≤ onsets.length := by
    unfold searchsortedL
    exact List.countP_le_length _
  by_cases hidx : searchsortedL onsets t < onsets.length
  · simp [hidx]
  · have hpos : 0 < searchsortedL onsets t := by omega
    simp [hidx, hpos]

/-- C5: hit judgment.  With a non-empty onset array (so the two nearest
candidates exist): if no unresolved candidate remains the extra-input
penalty applies (health reduced, combo reset, nothing resolved);
otherwise, with `diff` the minimal absolute difference, `diff < PERFECT`
awards +300, `PERFECT ≤ diff < GOOD` awards +100, `GOOD ≤ diff < BAD`
awards +50 — each resolving the matched onset, incrementing combo,
updating max combo and raising health — and `diff ≥ BAD` applies the
extra-input penalty.  Moreover, in the concrete scenario of the spec, an
onset at 10.000 s with an input at 10.03 s is judged PERFECT with combo
1, and a second input at 10.03 s then takes the extra-input penalty. -/
theorem process_hit_judgment :
    (∀ (death : Bool) (onsets : List ℚ) (t : ℚ) (processed : List ℚ)
        (gl : Globals) (valid : List ℚ), onsets ≠ [] →
      valid = (candidatesOf onsets t).filter (fun c => decide (c ∉ processed)) →
      ((valid = [] →
          processHit death onsets t processed gl =
            (processed, extraPenalty death gl)) ∧
        (valid ≠ [] → |closestTo t valid - t| < PERFECT →
          processHit death onsets t processed gl =
            (processed.insert (closestTo t valid),
              { score := gl.score + 300
                combo := gl.combo + 1
                max_combo := if gl.combo + 1 > gl.max_combo then gl.combo + 1
                  else gl.max_combo
                health := min gl.max_health (gl.health + 6)
                max_health := gl.max_health
                feedback := "PERFECT" })) ∧
        (valid ≠ [] → PERFECT ≤ |closestTo t valid - t| →
            |closestTo t valid - t| < GOOD →
          processHit death onsets t processed gl =
            (processed.insert (closestTo t valid),
              { score := gl.score + 100
                combo := gl.combo + 1
                max_combo := if gl.combo + 1 > gl.max_combo then gl.combo + 1
                  else gl.max_combo
                health := min gl.max_health (gl.health + 3)
                max_health := gl.max_health
                feedback := "GOOD" })) ∧
        (valid ≠ [] → GOOD ≤ |closestTo t valid - t| →
            |closestTo t valid - t| < BAD →
          processHit death onsets t processed gl =
            (processed.insert (closestTo t valid),
              { score := gl.score + 50
                combo := gl.combo + 1
                max_combo := if gl.combo + 1 > gl.max_combo then gl.combo + 1
                  else gl.max_combo
                health := min gl.max_health (gl.health + 1 / 2)
                max_health := gl.max_health
                feedback := "OK" })) ∧
        (valid ≠ [] → BAD ≤ |closestTo t valid - t| →
          processHit death onsets t processed gl =
            (processed, extraPenalty death gl)))) ∧
    (processHit false [10] (1003 / 100) [] initGlobals =
        ([10], { score := 300, combo := 1, max_combo := 1, health := 100,
                 max_health := 100, feedback := "PERFECT" }) ∧
      processHit false [10] (1003 / 100) [10]
          { score := 300, combo := 1, max_combo := 1, health := 100,
            max_health := 100, feedback := "PERFECT" } =
        ([10], { score := 300, combo := 0, max_combo := 1, health := 96,
                 max_health := 100, feedback := "X" })) := by
  constructor
  · intro death onsets t processed gl valid hne hv
    subst hv
    have hc : candidatesOf onsets t ≠ [] := candidatesOf_ne_nil onsets t hne
    refine ⟨?_, ?_, ?_, ?_, ?_⟩
    · intro h0
      simp only [processHit, if_neg hc, if_pos h0]
    · intro h0 hp
      have hb : |closestTo t ((candidatesOf onsets t).filter
          (fun c => decide (c ∉ processed))) - t| < BAD :=
        lt_trans hp (by norm_num [PERFECT, BAD])
      simp only [processHit, if_neg hc, if_neg h0, judgeValid, if_pos hb,
        if_pos hp]
    · intro h0 hpge hg
      have hb : |closestTo t ((candidatesOf onsets t).filter
          (fun c => decide (c ∉ processed))) - t| < BAD :=
        lt_trans hg (by norm_num [GOOD, BAD])
      have hnp : ¬ (|closestTo t ((candidatesOf onsets t).filter
          (fun c => decide (c ∉ processed))) - t| < PERFECT) := not_lt.mpr hpge
      simp only [processHit, if_neg hc, if_neg h0, judgeValid, if_pos hb,
        if_neg hnp, if_pos hg]
    · intro h0 hgge hb
      have hnp : ¬ (|closestTo t ((candidatesOf onsets t).filter
          (fun c => decide (c ∉ processed))) - t| < PERFECT) :=
        not_lt.mpr (le_trans (by norm_num [PERFECT, GOOD]) hgge)
      have hng : ¬ (|closestTo t ((candidatesOf onsets t).filter
          (fun c => decide (c ∉ processed))) - t| < GOOD) := not_lt.mpr hgge
      simp only [processHit, if_neg hc, if_neg h0, judgeValid, if_pos hb,
        if_neg hnp, if_neg hng]
    · intro h0 hbge
      have hnb : ¬ (|closestTo t ((candidatesOf onsets t).filter
          (fun c => decide (c ∉ processed))) - t| < BAD) := not_lt.mpr hbge
      simp only [processHit, if_neg hc, if_neg h0, judgeValid, if_neg hnb]
  · constructor
    · norm_num [processHit, judgeValid, candidatesOf, searchsortedL, closestTo,
        initGlobals, BAD, PERFECT, GOOD, List.countP_cons, List.countP_nil,
        List.insert, abs_of_nonneg]
    · norm_num [processHit, judgeValid, candidatesOf, searchsortedL, closestTo,
        extraPenalty, extraLoss, BAD, PERFECT, GOOD, List.countP_cons,
        List.countP_nil, abs_of_nonneg]

/-- Witness for C5: the hypothesis-bearing general part applied at the
concrete scenario input (track with one onset at 10, fresh judgment
state). -/
theorem process_hit_judgment_witness :
    (([10] : List ℚ) ≠ [] ∧
      ([10] : List ℚ) =
        (candidatesOf [10] (1003 / 100)).filter
          (fun c => decide (c ∉ ([] : List ℚ)))) ∧
    (([10] : List ℚ) ≠ [] →
      |closestTo (1003 / 100) [10] - 1003 / 100| < PERFECT →
      processHit false [10] (1003 / 100) [] initGlobals =
        (List.insert (closestTo (1003 / 100) [10]) [],
          { score := initGlobals.score + 300
            combo := initGlobals.combo + 1
            max_combo := if initGlobals.combo + 1 > initGlobals.max_combo
              then initGlobals.combo + 1 else initGlobals.max_combo
            health := min initGlobals.max_health (initGlobals.health + 6)
            max_health := initGlobals.max_health
            feedback := "PERFECT" })) := by
  have hfilter : ([10] : List ℚ) =
      (candidatesOf [10] (1003 / 100)).filter
        (fun c => decide (c ∉ ([] : List ℚ))) := by
    norm_num [candidatesOf, searchsortedL, List.countP_cons, List.countP_nil]
  exact ⟨⟨by simp, hfilter⟩,
    (process_hit_judgment.1 false [10] (1003 / 100) [] initGlobals [10]
      (by simp) hfilter).2.1⟩

lemma get_mono_of_pairwise_le {xs : List ℚ} (hs : List.Pairwise (· ≤ ·) xs)
    (i j : ℕ) (hi : i < xs.length) (hj : j < xs.length) (hij : i ≤ j) :
    xs.get ⟨i, hi⟩ ≤ xs.get ⟨j, hj⟩ := by
  rcases Nat.lt_or_ge i j with h | h
  · exact List.pairwise_iff_get.mp hs ⟨i, hi⟩ ⟨j, hj⟩ h
  · have hq : i = j := le_antisymm hij h
    subst hq
    exact le_refl _

lemma sweepGo_track_indep (T loss : ℚ) (onsets : List ℚ) :
    ∀ (fuel c : ℕ) (pr : List ℚ) (gl gl2 : Globals),
      (sweepGo T loss onsets fuel c pr gl).1 =
        (sweepGo T loss onsets fuel c pr gl2).1 ∧
      (sweepGo T loss onsets fuel c pr gl).2.1 =
        (sweepGo T loss onsets fuel c pr gl2).2.1 := by
  intro fuel
  induction fuel with
  | zero => intro c pr gl gl2; simp [sweepGo]
  | succ n ih =>
    intro c pr gl gl2
    simp only [sweepGo]
    by_cases hc : c < onsets.length
    · rw [dif_pos hc, dif_pos hc]
      by_cases hT : T > onsets.get ⟨c, hc⟩ + BAD
      · rw [if_pos hT, if_pos hT]
        by_cases hm : onsets.get ⟨c, hc⟩ ∈ pr
        · rw [if_pos hm, if_pos hm]; exact ih _ _ _ _
        · rw [if_neg hm, if_neg hm]; exact ih _ _ _ _
      · rw [if_neg hT, if_neg hT]; exact ⟨rfl, rfl⟩
    · rw [dif_neg hc, dif_neg hc]; exact ⟨rfl, rfl⟩

lemma sweepGo_cursor_past (T loss : ℚ) (onsets : List ℚ)
    (hs : List.Pairwise (· ≤ ·) onsets) :
    ∀ (fuel c : ℕ) (pr : List ℚ) (gl : Globals),
      onsets.length ≤ c + fuel →
      ∀ j (hj : j < onsets.length), onsets.get ⟨j, hj⟩ < T - BAD →
        j < (sweepGo T loss onsets fuel c pr gl).1 := by
  intro fuel
  induction fuel with
  | zero =>
    intro c pr gl hlen j hj hlt
    simp only [sweepGo]
    omega
  | succ n ih =>
    intro c pr gl hlen j hj hlt
    simp only [sweepGo]
    by_cases hc : c < onsets.length
    · rw [dif_pos hc]
      by_cases hT : T > onsets.get ⟨c, hc⟩ + BAD
      · rw [if_pos hT]
        by_cases hm : onsets.get ⟨c, hc⟩ ∈ pr
        · rw [if_pos hm]; exact ih (c + 1) pr gl (by omega) j hj hlt
        · rw [if_neg hm]; exact ih (c + 1) _ _ (by omega) j hj hlt
      · rw [if_neg hT]
        by_contra hjc
        push_neg at hjc
        have hmo : onsets.get ⟨c, hc⟩ ≤ onsets.get ⟨j, hj⟩ :=
          get_mono_of_pairwise_le hs c j hc hj (by omega)
        apply hT
        unfold BAD at hlt ⊢
        linarith
    · rw [dif_neg hc]
      omega

lemma sweepGo_processed_inv (T loss : ℚ) (onsets : List ℚ) :
    ∀ (fuel c : ℕ) (pr : List ℚ) (gl : Globals),
      (∀ j (hj : j < onsets.length), j < c → onsets.get ⟨j, hj⟩ ∈ pr) →
      ∀ j (hj : j < onsets.length),
        j < (sweepGo T loss onsets fuel c pr gl).1 →
        onsets.get ⟨j, hj⟩ ∈ (sweepGo T loss onsets fuel c pr gl).2.1 := by
  intro fuel
  induction fuel with
  | zero =>
    intro c pr gl hinv j hj hjc
    simp only [sweepGo] at hjc ⊢
    exact hinv j hj hjc
  | succ n ih =>
    intro c pr gl hinv j hj hjc
    simp only [sweepGo] at hjc ⊢
    by_cases hc : c < onsets.length
    · rw [dif_pos hc] at hjc ⊢
      by_cases hT : T > onsets.get ⟨c, hc⟩ + BAD
      · rw [if_pos hT] at hjc ⊢
        by_cases hm : onsets.get ⟨c, hc⟩ ∈ pr
        · rw [if_pos hm] at hjc ⊢
          apply ih (c + 1) pr gl ?_ j hj hjc
          intro j2 hj2 hj2c
          rcases Nat.lt_or_ge j2 c with h | h
          · exact hinv j2 hj2 h
          · have hq : j2 = c := by omega
            subst hq
            exact hm
        · rw [if_neg hm] at hjc ⊢
          apply ih (c + 1) _ _ ?_ j hj hjc
          intro j2 hj2 hj2c
          rcases Nat.lt_or_ge j2 c with h | h
          · exact List.mem_insert_of_mem (hinv j2 hj2 h)
          · have hq : j2 = c := by omega
            subst hq
            exact List.mem_insert_self _ _
      · rw [if_neg hT] at hjc ⊢
        exact hinv j hj hjc
    · rw [dif_neg hc] at hjc ⊢
      exact hinv j hj hjc

lemma sweepGo_health_le (T loss : ℚ) (onsets : List ℚ) (hloss : 0 ≤ loss) :
    ∀ (fuel c : ℕ) (pr : List ℚ) (gl : Globals),
      (sweepGo T loss onsets fuel c pr gl).2.2.health ≤ max 0 gl.health := by
  intro fuel
  induction fuel with
  | zero => intro c pr gl; simp [sweepGo, le_max_right]
  | succ n ih =>
    intro c pr gl
    simp only [sweepGo]
    by_cases hc : c < onsets.length
    · rw [dif_pos hc]
      by_cases hT : T > onsets.get ⟨c, hc⟩ + BAD
      · rw [if_pos hT]
        by_cases hm : onsets.get ⟨c, hc⟩ ∈ pr
        · rw [if_pos hm]; exact ih _ _ _
        · rw [if_neg hm]
          refine le_trans (ih _ _ _) ?_
          simp only [triggerMissGl]
          apply max_le (le_max_left _ _)
          apply max_le (le_max_left _ _)
          exact le_trans (sub_le_self _ hloss) (le_max_right _ _)
      · rw [if_neg hT]; exact le_max_right _ _
    · rw [dif_neg hc]; exact le_max_right _ _

lemma sweepGo_health_nonneg (T loss : ℚ) (onsets : List ℚ) :
    ∀ (fuel c : ℕ) (pr : List ℚ) (gl : Globals), 0 ≤ gl.health →
      0 ≤ (sweepGo T loss onsets fuel c pr gl).2.2.health := by
  intro fuel
  induction fuel with
  | zero => intro c pr gl h; simpa [sweepGo] using h
  | succ n ih =>
    intro c pr gl h
    simp only [sweepGo]
    by_cases hc : c < onsets.length
    · rw [dif_pos hc]
      by_cases hT : T > onsets.get ⟨c, hc⟩ + BAD
      · rw [if_pos hT]
        by_cases hm : onsets.get ⟨c, hc⟩ ∈ pr
        · rw [if_pos hm]; exact ih _ _ _ h
        · rw [if_neg hm]
          exact ih _ _ _ (le_max_left _ _)
      · rw [if_neg hT]; exact h
    · rw [dif_neg hc]; exact h

lemma sweepGo_combo_cases (T loss : ℚ) (onsets : List ℚ) :
    ∀ (fuel c : ℕ) (pr : List ℚ) (gl : Globals),
      (sweepGo T loss onsets fuel c pr gl).2.2.combo = 0 ∨
      (sweepGo T loss onsets fuel c pr gl).2.2.combo = gl.combo := by
  intro fuel
  induction fuel with
  | zero => intro c pr gl; simp [sweepGo]
  | succ n ih =>
    intro c pr gl
    simp only [sweepGo]
    by_cases hc : c < onsets.length
    · rw [dif_pos hc]
      by_cases hT : T > onsets.get ⟨c, hc⟩ + BAD
      · rw [if_pos hT]
        by_cases hm : onsets.get ⟨c, hc⟩ ∈ pr
        · rw [if_pos hm]; exact ih _ _ _
        · rw [if_neg hm]
          rcases ih (c + 1) (pr.insert (onsets.get ⟨c, hc⟩))
            (triggerMissGl loss gl) with h | h
          · exact Or.inl h
          · exact Or.inl h
      · rw [if_neg hT]; exact Or.inr rfl
    · rw [dif_neg hc]; exact Or.inr rfl

lemma sweepGo_miss (T loss : ℚ) (onsets : List ℚ) (hloss : 0 ≤ loss)
    (hs : List.Pairwise (· ≤ ·) onsets) :
    ∀ (fuel c : ℕ) (pr : List ℚ) (gl : Globals),
      onsets.length ≤ c + fuel →
      (∃ j, ∃ (hj : j < onsets.length), c ≤ j ∧
        onsets.get ⟨j, hj⟩ < T - BAD ∧ onsets.get ⟨j, hj⟩ ∉ pr) →
      (sweepGo T loss onsets fuel c pr gl).2.2.combo = 0 ∧
      (sweepGo T loss onsets fuel c pr gl).2.2.health ≤
        max 0 (gl.health - loss) := by
  intro fuel
  induction fuel with
  | zero =>
    intro c pr gl hlen hex
    obtain ⟨j, hj, hcj, _, _⟩ := hex
    omega
  | succ n ih =>
    intro c pr gl hlen hex
    obtain ⟨j, hj, hcj, hjlt, hjnm⟩ := hex
    have hc : c < onsets.length := lt_of_le_of_lt hcj hj
    simp only [sweepGo]
    rw [dif_pos hc]
    have hT : T > onsets.get ⟨c, hc⟩ + BAD := by
      have hmo : onsets.get ⟨c, hc⟩ ≤ onsets.get ⟨j, hj⟩ :=
        get_mono_of_pairwise_le hs c j hc hj hcj
      linarith
    rw [if_pos hT]
    by_cases hm : onsets.get ⟨c, hc⟩ ∈ pr
    · rw [if_pos hm]
      apply ih (c + 1) pr gl (by omega)
      have hne : c ≠ j := by
        rintro rfl
        exact hjnm hm
      exact ⟨j, hj, by omega, hjlt, hjnm⟩
    · rw [if_neg hm]
      constructor
      · rcases sweepGo_combo_cases T loss onsets n (c + 1)
          (pr.insert (onsets.get ⟨c, hc⟩)) (triggerMissGl loss gl) with h | h
        · exact h
        · rw [h]; rfl
      · refine le_trans (sweepGo_health_le T loss onsets hloss n (c + 1) _ _) ?_
        simp only [triggerMissGl]
        exact le_of_eq (max_eq_right (le_max_left _ _))

lemma sweepTrackG_fst_indep (T loss : ℚ) (tr : TrackState) (gl : Globals) :
    (sweepTrackG T loss tr gl).1 = sweepTrackPure T loss tr := by
  unfold sweepTrackPure sweepTrackG
  have h := sweepGo_track_indep T loss tr.onsets
    (tr.onsets.length - tr.cursor) tr.cursor tr.processed gl initGlobals
  rw [h.1, h.2]

lemma sweepTracks_get (T loss : ℚ) :
    ∀ (trs : List TrackState) (gl : Globals) (k : ℕ) (tr : TrackState),
      trs.get? k = some tr →
      (sweepTracks T loss trs gl).1.get? k =
        some (sweepTrackPure T loss tr) := by
  intro trs
  induction trs with
  | nil => intro gl k tr h; simp at h
  | cons hd tl ih =>
    intro gl k tr h
    cases k with
    | zero =>
      simp only [List.get?_cons_zero, Option.some.injEq] at h
      subst h
      simp [sweepTracks, sweepTrackG_fst_indep]
    | succ k2 =>
      simp only [List.get?_cons_succ] at h
      simp only [sweepTracks, List.get?_cons_succ]
      exact ih _ k2 tr h

lemma sweepTracks_health_le (T loss : ℚ) (hloss : 0 ≤ loss) :
    ∀ (trs : List TrackState) (gl : Globals),
      (sweepTracks T loss trs gl).2.health ≤ max 0 gl.health := by
  intro trs
  induction trs with
  | nil => intro gl; simp [sweepTracks, le_max_right]
  | cons hd tl ih =>
    intro gl
    simp only [sweepTracks]
    refine le_trans (ih _) ?_
    apply max_le (le_max_left _ _)
    exact sweepGo_health_le T loss hd.onsets hloss _ _ _ _

lemma sweepTracks_health_nonneg (T loss : ℚ) :
    ∀ (trs : List TrackState) (gl : Globals), 0 ≤ gl.health →
      0 ≤ (sweepTracks T loss trs gl).2.health := by
  intro trs
  induction trs with
  | nil => intro gl h; simpa [sweepTracks] using h
  | cons hd tl ih =>
    intro gl h
    simp only [sweepTracks]
    exact ih _ (sweepGo_health_nonneg T loss hd.onsets _ _ _ _ h)

lemma sweepTracks_combo_cases (T loss : ℚ) :
    ∀ (trs : List TrackState) (gl : Globals),
      (sweepTracks T loss trs gl).2.combo = 0 ∨
      (sweepTracks T loss trs gl).2.combo = gl.combo := by
  intro trs
  induction trs with
  | nil => intro gl; simp [sweepTracks]
  | cons hd tl ih =>
    intro gl
    simp only [sweepTracks]
    rcases ih ((sweepTrackG T loss hd gl).2) with h | h
    · exact Or.inl h
    · rw [h]
      exact sweepGo_combo_cases T loss hd.onsets _ _ _ _

lemma sweepTracks_miss (T loss : ℚ) (hloss : 0 ≤ loss) :
    ∀ (trs : List TrackState) (gl : Globals) (k : ℕ) (tr : TrackState),
      trs.get? k = some tr →
      List.Pairwise (· ≤ ·) tr.onsets →
      0 ≤ gl.health →
      (∃ j, ∃ (hj : j < tr.onsets.length), tr.cursor ≤ j ∧
        tr.onsets.get ⟨j, hj⟩ < T - BAD ∧
        tr.onsets.get ⟨j, hj⟩ ∉ tr.processed) →
      (sweepTracks T loss trs gl).2.combo = 0 ∧
      (sweepTracks T loss trs gl).2.health ≤ max 0 (gl.health - loss) := by
  intro trs
  induction trs with
  | nil => intro gl k tr h; simp at h
  | cons hd tl ih =>
    intro gl k tr h hsorted hgh hex
    cases k with
    | zero =>
      simp only [List.get?_cons_zero, Option.some.injEq] at h
      subst h
      have hmiss := sweepGo_miss T loss hd.onsets hloss hsorted
        (hd.onsets.length - hd.cursor) hd.cursor hd.processed gl
        (by omega) hex
      simp only [sweepTracks]
      constructor
      · rcases sweepTracks_combo_cases T loss tl ((sweepTrackG T loss hd gl).2)
          with h2 | h2
        · exact h2
        · rw [h2]
          exact hmiss.1
      · refine le_trans (sweepTracks_health_le T loss hloss tl _) ?_
        apply max_le (le_max_left _ _)
        exact hmiss.2
    | succ k2 =>
      simp only [List.get?_cons_succ] at h
      simp only [sweepTracks]
      have hgh2 : 0 ≤ ((sweepTrackG T loss hd gl).2).health :=
        sweepGo_health_nonneg T loss hd.onsets _ _ _ _ hgh
      have hres := ih ((sweepTrackG T loss hd gl).2) k2 tr h hsorted hgh2 hex
      refine ⟨hres.1, le_trans hres.2 ?_⟩
      have hle : ((sweepTrackG T loss hd gl).2).health ≤ gl.health := by
        refine le_trans (sweepGo_health_le T loss hd.onsets hloss _ _ _ _) ?_
        exact le_of_eq (max_eq_right hgh)
      exact max_le (le_max_left _ _)
        (le_trans (by linarith) (le_max_right _ _))

lemma processHit_fst_mono (death : Bool) (onsets : List ℚ) (t : ℚ)
    (pr : List ℚ) (gl : Globals) :
    ∀ x ∈ pr, x ∈ (processHit death onsets t pr gl).1 := by
  unfold processHit judgeValid
  split_ifs <;> intro x hx <;>
    first
      | exact hx
      | exact List.mem_insert_of_mem hx

lemma processHitAt_fields (t : ℚ) (k2 : ℕ) (g : GameState) (k : ℕ)
    (tr : TrackState) (h : g.tracks.get? k = some tr) :
    ∃ tr2, (processHitAt t k2 g).tracks.get? k = some tr2 ∧
      tr2.onsets = tr.onsets ∧ tr2.cursor = tr.cursor ∧
      ∀ x ∈ tr.processed, x ∈ tr2.processed := by
  unfold processHitAt
  cases hk : g.tracks.get? k2 with
  | none => exact ⟨tr, h, rfl, rfl, fun x hx => hx⟩
  | some trk =>
    by_cases hkk : k2 = k
    · subst hkk
      rw [hk] at h
      have htr : trk = tr := by
        simpa using h
      subst htr
      obtain ⟨hlt, -⟩ := List.get?_eq_some.mp hk
      refine ⟨{ trk with
          processed := (processHit g.death trk.onsets t trk.processed g.gl).1 },
        ?_, rfl, rfl, ?_⟩
      · simp only []
        rw [List.get?_set_eq_of_lt _ hlt]
      · intro x hx
        exact processHit_fst_mono g.death trk.onsets t trk.processed g.gl x hx
    · refine ⟨tr, ?_, rfl, rfl, fun x hx => hx⟩
      simp only []
      rw [List.get?_set_ne _ _ hkk]
      exact h

lemma processEvents_fields (t : ℚ) :
    ∀ (events : List ℕ) (g : GameState) (k : ℕ) (tr : TrackState),
      g.tracks.get? k = some tr →
      ∃ tr2, (processEvents t events g).tracks.get? k = some tr2 ∧
        tr2.onsets = tr.onsets ∧ tr2.cursor = tr.cursor ∧
        ∀ x ∈ tr.processed, x ∈ tr2.processed := by
  intro events
  induction events with
  | nil => intro g k tr h; exact ⟨tr, h, rfl, rfl, fun x hx => hx⟩
  | cons e rest ih =>
    intro g k tr h
    obtain ⟨tr1, h1, ho1, hc1, hp1⟩ := processHitAt_fields t e g k tr h
    obtain ⟨tr2, h2, ho2, hc2, hp2⟩ := ih (processHitAt t e g) k tr1 h1
    refine ⟨tr2, h2, ho2.trans ho1, hc2.trans hc1, fun x hx => hp2 x (hp1 x hx)⟩

/-- C6: the miss sweep.  On an active frame at time `T` (not in
countdown, not game over, health positive), for any track whose onsets
are sorted and whose cursor has only resolved onsets behind it: the
frame factors as drain, then sweep, then input processing (the sweep
runs before any of the frame's input events); after the sweep every
onset strictly below `T - BAD` is resolved and the cursor has advanced
past it; if some such onset was still unresolved, the sweep has reset
combo to 0 and applied at least one miss penalty to health; and the
input events that follow never unresolve an onset nor move the cursor,
so no onset is judged twice and no bygone onset blocks future
judgment. -/
theorem miss_sweep_exhaustive (T : ℚ) (events : List ℕ) (g : GameState)
    (k : ℕ) (tr : TrackState)
    (hcd : g.in_countdown = false) (hgo : g.game_over = false)
    (hh : 0 < g.gl.health)
    (htr : g.tracks.get? k = some tr)
    (hs : List.Pairwise (· ≤ ·) tr.onsets)
    (hinv : ∀ j (hj : j < tr.onsets.length), j < tr.cursor →
      tr.onsets.get ⟨j, hj⟩ ∈ tr.processed) :
    gameUpdate T events g =
      processEvents T events (missSweepAll T (drainHealth g)) ∧
    ∃ tr2, (missSweepAll T (drainHealth g)).tracks.get? k = some tr2 ∧
      tr2.onsets = tr.onsets ∧
      (∀ j (hj : j < tr.onsets.length), tr.onsets.get ⟨j, hj⟩ < T - BAD →
        j < tr2.cursor ∧ tr.onsets.get ⟨j, hj⟩ ∈ tr2.processed) ∧
      ((∃ j, ∃ (hj : j < tr.onsets.length), tr.cursor ≤ j ∧
          tr.onsets.get ⟨j, hj⟩ < T - BAD ∧
          tr.onsets.get ⟨j, hj⟩ ∉ tr.processed) →
        (missSweepAll T (drainHealth g)).gl.combo = 0 ∧
        (missSweepAll T (drainHealth g)).gl.health ≤
          max 0 ((drainHealth g).gl.health - missLoss g.death)) ∧
      ∃ tr3, (gameUpdate T events g).tracks.get? k = some tr3 ∧
        tr3.cursor = tr2.cursor ∧
        ∀ x ∈ tr2.processed, x ∈ tr3.processed := by
  have hloss : (0 : ℚ) ≤ missLoss g.death := by
    unfold missLoss
    split <;> norm_num
  have hfact : gameUpdate T events g =
      processEvents T events (missSweepAll T (drainHealth g)) := by
    unfold gameUpdate
    rw [if_neg (by simp [hcd]), if_neg (by simp [hgo]),
      if_neg (not_le.mpr hh)]
  refine ⟨hfact, ?_⟩
  have hget : (missSweepAll T (drainHealth g)).tracks.get? k =
      some (sweepTrackPure T (missLoss g.death) tr) :=
    sweepTracks_get T (missLoss g.death) g.tracks (drainHealth g).gl k tr htr
  refine ⟨sweepTrackPure T (missLoss g.death) tr, hget, rfl, ?_, ?_, ?_⟩
  · intro j hj hjlt
    have hcur : j < (sweepTrackPure T (missLoss g.death) tr).cursor :=
      sweepGo_cursor_past T (missLoss g.death) tr.onsets hs
        (tr.onsets.length - tr.cursor) tr.cursor tr.processed initGlobals
        (by omega) j hj hjlt
    exact ⟨hcur,
      sweepGo_processed_inv T (missLoss g.death) tr.onsets
        (tr.onsets.length - tr.cursor) tr.cursor tr.processed initGlobals
        hinv j hj hcur⟩
  · intro hex
    have h0 : (0 : ℚ) ≤ (drainHealth g).gl.health := le_max_left _ _
    exact sweepTracks_miss T (missLoss g.death) hloss g.tracks
      (drainHealth g).gl k tr htr hs h0 hex
  · rw [hfact]
    obtain ⟨tr3, h3, -, hc3, hp3⟩ :=
      processEvents_fields T events (missSweepAll T (drainHealth g)) k
        (sweepTrackPure T (missLoss g.death) tr) hget
    exact ⟨tr3, h3, hc3, hp3⟩

/-- Witness for C6 at the concrete state `sampleGame`, frame time 2 s
(the onset at 1 s is more than BAD behind), no input events. -/
theorem miss_sweep_exhaustive_witness :
    gameUpdate 2 [] sampleGame =
      processEvents 2 [] (missSweepAll 2 (drainHealth sampleGame)) ∧
    ∃ tr2, (missSweepAll 2 (drainHealth sampleGame)).tracks.get? 0 = some tr2 ∧
      tr2.onsets = sampleTrack.onsets ∧
      (∀ j (hj : j < sampleTrack.onsets.length),
        sampleTrack.onsets.get ⟨j, hj⟩ < 2 - BAD →
        j < tr2.cursor ∧ sampleTrack.onsets.get ⟨j, hj⟩ ∈ tr2.processed) ∧
      ((∃ j, ∃ (hj : j < sampleTrack.onsets.length), sampleTrack.cursor ≤ j ∧
          sampleTrack.onsets.get ⟨j, hj⟩ < 2 - BAD ∧
          sampleTrack.onsets.get ⟨j, hj⟩ ∉ sampleTrack.processed) →
        (missSweepAll 2 (drainHealth sampleGame)).gl.combo = 0 ∧
        (missSweepAll 2 (drainHealth sampleGame)).gl.health ≤
          max 0 ((drainHealth sampleGame).gl.health - missLoss sampleGame.death)) ∧
      ∃ tr3, (gameUpdate 2 [] sampleGame).tracks.get? 0 = some tr3 ∧
        tr3.cursor = tr2.cursor ∧
        ∀ x ∈ tr2.processed, x ∈ tr3.processed :=
  miss_sweep_exhaustive 2 [] sampleGame 0 sampleTrack rfl rfl
    (by norm_num [sampleGame, initGlobals]) rfl
    (by simp [sampleTrack])
    (fun j hj hc => absurd hc (by simp [sampleTrack]))

/-- C10: on every active update (not paused/countdown, not game over,
health positive) the judge first lowers health by the constant passive
drain `5.0 * 0.016 = 0.08`, clamped below at 0, and only then runs the
miss sweep and the input processing — so health decays every frame even
with no miss and no input. -/
theorem health_drain (T : ℚ) (events : List ℕ) (g : GameState)
    (hcd : g.in_countdown = false) (hgo : g.game_over = false)
    (hh : 0 < g.gl.health) :
    gameUpdate T events g =
      processEvents T events (missSweepAll T (drainHealth g)) ∧
    (drainHealth g).gl.health = max 0 (g.gl.health - 2 / 25) := by
  constructor
  · unfold gameUpdate
    rw [if_neg (by simp [hcd]), if_neg (by simp [hgo]),
      if_neg (not_le.mpr hh)]
  · unfold drainHealth
    norm_num

/-- Witness for C10 at the concrete state `sampleGame`. -/
theorem health_drain_witness :
    gameUpdate 2 [] sampleGame =
      processEvents 2 [] (missSweepAll 2 (drainHealth sampleGame)) ∧
    (drainHealth sampleGame).gl.health =
      max 0 (sampleGame.gl.health - 2 / 25) :=
  health_drain 2 [] sampleGame rfl rfl (by norm_num [sampleGame, initGlobals])

lemma stepViewport_last (env : EffEnv) (col : ℕ × ℕ × ℕ) (center : Vec2)
    (timeline : List Segment) (onsets : List ℚ) (t dt : ℚ)
    (st : ViewState) :
    (stepViewport env col center timeline onsets t dt st).last_hit_idx =
      if hitFires timeline onsets t st then timeToIndex onsets t
      else st.last_hit_idx := by
  unfold stepViewport hitFires stepActive
  split_ifs <;> simp_all

/-- C7: hit-trigger idempotence.  The effect fires only when the active
segment's progress exceeds the threshold and its index differs from the
stored last-triggered index (that is the definition of `hitFires`, read
off `renderer.py` line 204); when it fires, the frame step records the
active index; and after a firing frame, re-evaluating any time that maps
to the same active segment — the same time included — does not fire
again. -/
theorem hit_trigger_idempotent (env : EffEnv) (col : ℕ × ℕ × ℕ)
    (center : Vec2) (timeline : List Segment) (onsets : List ℚ)
    (t t2 dt : ℚ) (st : ViewState)
    (hf : hitFires timeline onsets t st = true)
    (hsame : timeToIndex onsets t2 = timeToIndex onsets t) :
    (stepViewport env col center timeline onsets t dt st).last_hit_idx =
      timeToIndex onsets t ∧
    hitFires timeline onsets t2
      (stepViewport env col center timeline onsets t dt st) = false := by
  have hl := stepViewport_last env col center timeline onsets t dt st
  rw [hf] at hl
  simp only [if_true] at hl
  refine ⟨hl, ?_⟩
  unfold hitFires
  by_cases he : timeline = []
  · rw [if_pos he]
  · rw [if_neg he]
    by_cases h2 : 0 ≤ timeToIndex onsets t2 ∧
        (timeToIndex onsets t2).toNat < timeline.length
    · rw [dif_pos h2]
      have hb : (timeToIndex onsets t2 !=
          (stepViewport env col center timeline onsets t dt st).last_hit_idx) =
            false := by
        rw [hl, hsame]
        simp
      rw [hb]
      simp
    · rw [dif_neg h2]

/-- Witness for C7: a one-segment timeline, a query at progress 0.95 in
its trigger window, evaluated twice from the initial state. -/
theorem hit_trigger_idempotent_witness :
    (stepViewport constEffEnv (0, 0, 0) ⟨0, 0⟩ [sampleSegment] [0, 1]
        (19 / 20) (16 / 1000) initViewState).last_hit_idx =
      timeToIndex [0, 1] (19 / 20) ∧
    hitFires [sampleSegment] [0, 1] (19 / 20)
      (stepViewport constEffEnv (0, 0, 0) ⟨0, 0⟩ [sampleSegment] [0, 1]
        (19 / 20) (16 / 1000) initViewState) = false :=
  hit_trigger_idempotent constEffEnv (0, 0, 0) ⟨0, 0⟩ [sampleSegment]
    [0, 1] (19 / 20) (19 / 20) (16 / 1000) initViewState
    (by norm_num [hitFires, timeToIndex, searchsortedL, segProgress,
      SHAKE_THRESHOLD, initViewState, sampleSegment, List.countP_cons,
      List.countP_nil])
    rfl

/-- C8 counterexample: starting with the camera exactly at the target,
one smoothing step leaves the distance at 0, which is NOT a strict
decrease — the claim fails for the camera value equal to the target. -/
theorem camera_convergence_cex :
    ¬ (normSq ((⟨0, 0⟩ : Vec2) - camStep ⟨0, 0⟩ ⟨0, 0⟩) <
        normSq ((⟨0, 0⟩ : Vec2) - (⟨0, 0⟩ : Vec2))) := by
  norm_num [camStep, normSq, LERP_FACTOR, Vec2.smul]

/-- C8 (amended): for a camera NOT already at the constant target, one
smoothing step strictly decreases the squared camera-target distance,
never flips the sign of either component of `target - camera` (no
overshoot), and never lands exactly on the target: the residual scales
by the factor `1 - 0.08 = 23/25` componentwise. -/
theorem camera_convergence (cam target : Vec2) (hne : cam ≠ target) :
    normSq (target - camStep cam target) < normSq (target - cam) ∧
    (target - camStep cam target).x = 23 / 25 * (target - cam).x ∧
    (target - camStep cam target).y = 23 / 25 * (target - cam).y ∧
    0 ≤ (target - camStep cam target).x * (target - cam).x ∧
    0 ≤ (target - camStep cam target).y * (target - cam).y ∧
    camStep cam target ≠ target := by
  have hx : (target - camStep cam target).x = 23 / 25 * (target - cam).x := by
    simp only [camStep, LERP_FACTOR, Vec2.sub_x, Vec2.add_x, Vec2.smul_x]
    ring
  have hy : (target - camStep cam target).y = 23 / 25 * (target - cam).y := by
    simp only [camStep, LERP_FACTOR, Vec2.sub_y, Vec2.add_y, Vec2.smul_y]
    ring
  have hcomp : (target - cam).x ≠ 0 ∨ (target - cam).y ≠ 0 := by
    by_contra hc
    push_neg at hc
    apply hne
    obtain ⟨cx, cy⟩ := cam
    obtain ⟨tx, ty⟩ := target
    simp only [Vec2.sub_x, Vec2.sub_y] at hc
    simp only [Vec2.mk.injEq]
    constructor <;> linarith [hc.1, hc.2]
  have hpos : 0 < normSq (target - cam) := by
    unfold normSq
    rcases hcomp with h | h
    · linarith [mul_self_pos.mpr h, mul_self_nonneg (target - cam).y]
    · linarith [mul_self_pos.mpr h, mul_self_nonneg (target - cam).x]
  refine ⟨?_, hx, hy, ?_, ?_, ?_⟩
  · unfold normSq
    rw [hx, hy]
    unfold normSq at hpos
    nlinarith [hpos]
  · rw [hx]
    nlinarith [sq_nonneg (target - cam).x]
  · rw [hy]
    nlinarith [sq_nonneg (target - cam).y]
  · intro hc
    rcases hcomp with h | h
    · apply h
      have hzx : (target - camStep cam target).x = 0 := by
        rw [hc]
        simp
      rw [hx] at hzx
      linarith [hzx]
    · apply h
      have hzy : (target - camStep cam target).y = 0 := by
        rw [hc]
        simp
      rw [hy] at hzy
      linarith [hzy]

/-- Witness for C8 at the camera `(0, 0)` and target `(1, 0)`. -/
theorem camera_convergence_witness :
    normSq ((⟨1, 0⟩ : Vec2) - camStep ⟨0, 0⟩ ⟨1, 0⟩) <
      normSq ((⟨1, 0⟩ : Vec2) - (⟨0, 0⟩ : Vec2)) ∧
    ((⟨1, 0⟩ : Vec2) - camStep ⟨0, 0⟩ ⟨1, 0⟩).x =
      23 / 25 * ((⟨1, 0⟩ : Vec2) - (⟨0, 0⟩ : Vec2)).x ∧
    ((⟨1, 0⟩ : Vec2) - camStep ⟨0, 0⟩ ⟨1, 0⟩).y =
      23 / 25 * ((⟨1, 0⟩ : Vec2) - (⟨0, 0⟩ : Vec2)).y ∧
    0 ≤ ((⟨1, 0⟩ : Vec2) - camStep ⟨0, 0⟩ ⟨1, 0⟩).x *
      ((⟨1, 0⟩ : Vec2) - (⟨0, 0⟩ : Vec2)).x ∧
    0 ≤ ((⟨1, 0⟩ : Vec2) - camStep ⟨0, 0⟩ ⟨1, 0⟩).y *
      ((⟨1, 0⟩ : Vec2) - (⟨0, 0⟩ : Vec2)).y ∧
    camStep (⟨0, 0⟩ : Vec2) ⟨1, 0⟩ ≠ ⟨1, 0⟩ :=
  camera_convergence ⟨0, 0⟩ ⟨1, 0⟩ (by simp [Vec2.mk.injEq])

/-- C9 counterexample: after a game over with `max_combo = 3`, the
restart block leaves `max_combo` at 3 — it does NOT return to its
initial value 0, so the reset is not the full reinitialization the
claim states. -/
theorem reset_cex :
    (resetGame sampleOverGame).gl.max_combo = 3 ∧
    (resetGame sampleOverGame).gl.max_combo ≠ initGlobals.max_combo := by
  constructor
  · rfl
  · intro h
    simp [resetGame, sampleOverGame, initGlobals] at h

/-- C9 (amended): the restart after a game over restores score, combo
and health to their initial values, clears the game-over flag,
re-enters the countdown, empties every track's resolved-onset set and
zeroes every cursor, and the spec-modelled sentinel handler restores the
animator's last-triggered index to its initial value; the baked
timelines and onset arrays are untouched — but `max_combo` is NOT
reset: it keeps its pre-reset value. -/
theorem reset_reinitializes (g : GameState) (v : ViewState) :
    (resetGame g).gl.score = initGlobals.score ∧
    (resetGame g).gl.combo = initGlobals.combo ∧
    (resetGame g).gl.health = g.gl.max_health ∧
    (resetGame g).game_over = false ∧
    (resetGame g).in_countdown = true ∧
    (resetGame g).tracks =
      g.tracks.map (fun tr => { tr with processed := [], cursor := 0 }) ∧
    (resetGame g).tracks.map (fun tr => tr.onsets) =
      g.tracks.map (fun tr => tr.onsets) ∧
    (resetGame g).tracks.map (fun tr => tr.timeline) =
      g.tracks.map (fun tr => tr.timeline) ∧
    (resetView v).last_hit_idx = initViewState.last_hit_idx ∧
    (resetGame g).gl.max_combo = g.gl.max_combo := by
  refine ⟨rfl, rfl, rfl, rfl, rfl, rfl, ?_, ?_, rfl, rfl⟩
  · simp only [resetGame, List.map_map]
    rfl
  · simp only [resetGame, List.map_map]
    rfl
